import Mathlib

/-!
Verification of the retrieval-augmented answer pipeline of the koisk
repository against its specification.

The Python sources are shallowly embedded: text is `String` (or `List Char`
for character-level routines), floats are `ℚ`, Python dicts with optional
keys become structures with `Option` fields, raising code returns `Except`,
and `None` results are `Option`.  Opaque collaborators (the embedding model,
the cross-encoder, the HTTP server) are abstracted as explicit outcome
parameters.  Each embedded definition mirrors one Python function:

* `search_documents`, `cosine_similarity` — `src/database/models.py`
* `rerank` — `src/components/reranker.py`
* `format_rag_context`, `build_prompt`, `post_process_response`,
  `call_llm_server`, `generate_fallback_response`, `generate_response`
  — `src/components/llm_inference.py`
-/

namespace Koisk

/-! ## String and character-list utilities -/

/-- Characters treated as whitespace by Python's `str.strip()`. -/
def isPySpace (c : Char) : Bool :=
  c = ' ' ∨ c = '\t' ∨ c = '\n' ∨ c = '\r' ∨ c = '\x0b' ∨ c = '\x0c'

/-- Python `str.strip()` on a character list: drop leading and trailing
whitespace. -/
def pyStrip (l : List Char) : List Char :=
  ((l.dropWhile isPySpace).reverse.dropWhile isPySpace).reverse

/-- Python `s[:n]` on a string. -/
def strTake (s : String) (n : ℕ) : String :=
  ⟨s.data.take n⟩

/-- Python `sub in s` substring test. -/
def strContains (s sub : String) : Bool :=
  decide (sub.data <:+: s.data)

/-- Python `"\n".join(parts)`. -/
def joinNL : List String → String
  | [] => ""
  | [s] => s
  | s :: rest => s ++ "\n" ++ joinNL rest

/-- Python `s.lower()` on a character list (ASCII case folding). -/
def lowerL (l : List Char) : List Char :=
  l.map Char.toLower

/-- Python `s[0].upper() + s[1:]` on a character list. -/
def capFirst : List Char → List Char
  | [] => []
  | c :: rest => c.toUpper :: rest

/-- Python `s.split(":", 1)[1]`: the remainder after the first colon, or
`none` when no colon occurs. -/
def afterColon : List Char → Option (List Char)
  | [] => none
  | c :: rest => if c = ':' then some rest else afterColon rest

/-- Python `s.split(sep)[0]`: the prefix of `l` strictly before the first
occurrence of `sep`; all of `l` when `sep` does not occur. -/
def splitHead (sep : List Char) : List Char → List Char
  | [] => []
  | c :: rest => if sep.isPrefixOf (c :: rest) then [] else c :: splitHead sep rest

theorem splitHead_nil (sep : List Char) : splitHead sep [] = [] := rfl

theorem splitHead_of_not_infix {sep l : List Char} (h : ¬ sep <:+: l) :
    splitHead sep l = l := by
  induction l with
  | nil => rfl
  | cons c rest ih =>
    rw [splitHead]
    rw [if_neg, ih]
    · intro hin
      exact h (List.infix_cons_iff.mpr (Or.inr hin))
    · intro hp
      exact h ((List.isPrefixOf_iff_prefix.mp hp).isInfix)

/-! ## Stable descending sort

Python's `sorted(..., key=k, reverse=True)` and `list.sort(key=k,
reverse=True)` produce the unique stable descending order: keys
non-increasing, ties kept in original order.  We embed it as Mathlib's
(stable) insertion sort under the total preorder `keyGe k`. -/

/-- The "comes no later than" relation of a descending sort by `key`. -/
def keyGe {α β : Type} [LinearOrder β] (key : α → β) (a b : α) : Prop :=
  key b ≤ key a

instance {α β : Type} [LinearOrder β] (key : α → β) : DecidableRel (keyGe key) :=
  fun a b => inferInstanceAs (Decidable (key b ≤ key a))

instance {α β : Type} [LinearOrder β] (key : α → β) : IsTotal α (keyGe key) :=
  ⟨fun a b => le_total (key b) (key a)⟩

instance {α β : Type} [LinearOrder β] (key : α → β) : IsTrans α (keyGe key) :=
  ⟨fun _ _ _ h1 h2 => le_trans h2 h1⟩

/-- Python `sorted(l, key=key, reverse=True)`: stable descending sort. -/
def sortDesc {α β : Type} [LinearOrder β] (key : α → β) (l : List α) : List α :=
  l.insertionSort (keyGe key)

theorem sortDesc_sorted {α β : Type} [LinearOrder β] (key : α → β) (l : List α) :
    (sortDesc key l).Sorted (keyGe key) :=
  List.sorted_insertionSort (keyGe key) l

theorem sortDesc_eq_self {α β : Type} [LinearOrder β] (key : α → β) {l : List α}
    (h : l.Sorted (keyGe key)) : sortDesc key l = l :=
  h.insertionSort_eq

/-- Stability of `sortDesc`: the elements satisfying any key-determined
predicate appear in the sorted output exactly as they appear in the input. -/
theorem filter_sortDesc {α β : Type} [LinearOrder β] (key : α → β)
    (p : α → Bool) (hp : ∀ a b, p a = true → p b = true → keyGe key a b)
    (l : List α) : (sortDesc key l).filter p = l.filter p := by
  have hperm : List.Perm ((sortDesc key l).filter p) (l.filter p) :=
    (List.perm_insertionSort (keyGe key) l).filter p
  have hpair : (l.filter p).Pairwise (keyGe key) := by
    refine List.pairwise_of_forall_mem_list ?_
    intro a ha b hb
    exact hp a b (List.of_mem_filter ha) (List.of_mem_filter hb)
  have hsub : List.Sublist (l.filter p) (sortDesc key l) :=
    List.sublist_insertionSort hpair (List.filter_sublist l)
  have hsub2 : List.Sublist (l.filter p) ((sortDesc key l).filter p) := by
    have h2 := hsub.filter p
    rwa [List.filter_filter, show (fun a => p a && p a) = p from funext fun a => Bool.and_self (p a)] at h2
  exact (hsub2.eq_of_length hperm.length_eq.symm).symm

/-- A filtered prefix: filtering `take n` gives a prefix of filtering the
whole list. -/
theorem filter_take_isPre {α : Type} (p : α → Bool) (l : List α) (n : ℕ) :
    (l.take n).filter p <+: l.filter p :=
  ⟨(l.drop n).filter p, by rw [← List.filter_append, List.take_append_drop]⟩

/-! ## Data model

A retrieval result is a Python dict.  The keys the pipeline reads are
`title` (read with a default in the context formatter, read directly in the
fallback), `content` (always read directly), `similarity` (set by the
retriever) and `rerank_score` (set by the reranker).  Optional keys become
`Option` fields. -/

/-- A retrieval-result dict as consumed by the pipeline. -/
structure Doc where
  title : Option String
  content : String
  similarity : Option ℚ
  rerank_score : Option ℚ
deriving DecidableEq, Repr

/-- Sort key used on similarity scores: Python `x.get('similarity', 0)`. -/
def simKey (d : Doc) : ℚ :=
  d.similarity.getD 0

/-- Sort key used on rerank scores: Python
`x.get('rerank_score', -float('inf'))`, with `⊥` standing for `-inf`. -/
def rerankKey (d : Doc) : WithBot ℚ :=
  match d.rerank_score with
  | some r => (r : WithBot ℚ)
  | none => ⊥

/-- Zero-padded three-digit rendering of `n % 1000`. -/
def pad3 (n : ℤ) : String :=
  let m := (n % 1000).toNat
  (if m < 10 then "00" else if m < 100 then "0" else "") ++ toString m

/-- Model of Python's `f"{x:.3f}"` float formatting. -/
def fmt3 (q : ℚ) : String :=
  let neg := q < 0
  let aq := if neg then -q else q
  let scaled : ℤ := ⌊aq * 1000 + 1 / 2⌋
  (if neg then "-" else "") ++ toString (scaled / 1000) ++ "." ++ pad3 scaled

/-! ## `DocumentModel.search_documents` and `_cosine_similarity`
(`src/database/models.py`)

`search_documents` fetches all rows (in storage order), scores each against
the query embedding with `_cosine_similarity`, sorts by similarity
descending with Python's stable sort, and returns the first `limit`
results.  The stored rows and the numeric scoring function (which runs on
numpy floats) are parameters of the embedding. -/

/-- A stored `documents` row as fetched by `search_documents`. -/
structure Row where
  id : ℕ
  title : String
  content : String
  embedding : List ℚ
deriving DecidableEq, Repr

/-- The result dict `search_documents` builds from a row and its score. -/
def rowToDoc (r : Row) (sim : ℚ) : Doc :=
  { title := some r.title, content := r.content,
    similarity := some sim, rerank_score := none }

/-- `DocumentModel.search_documents`: score all rows, sort by similarity
descending (stable), return the top `limit`. -/
def search_documents (simf : List ℚ → List ℚ → ℚ) (queryEmbedding : List ℚ)
    (rows : List Row) (limit : ℕ) : List Doc :=
  let results := rows.map fun r => rowToDoc r (simf queryEmbedding r.embedding)
  (sortDesc simKey results).take limit

/-- Dot product `np.dot` over exact rationals. -/
def dotQ (v1 v2 : List ℚ) : ℚ :=
  (List.zipWith (· * ·) v1 v2).sum

/-- The squared Euclidean norm; `np.linalg.norm v = sqrt (normSqQ v)`. -/
def normSqQ (v : List ℚ) : ℚ :=
  dotQ v v

/-- Float division with `none` standing for the NaN/Inf a zero divisor
would produce. -/
def fdiv (a b : ℚ) : Option ℚ :=
  if b = 0 then none else some (a / b)

/-- `DocumentModel._cosine_similarity`.  `sqrt` abstracts the numeric
square root used by `np.linalg.norm`, so `sqrt (normSqQ v)` is the norm of
`v`. -/
def cosine_similarity (sqrt : ℚ → ℚ) (vec1 vec2 : List ℚ) : Option ℚ :=
  let dot_product := dotQ vec1 vec2
  let norm1 := sqrt (normSqQ vec1)
  let norm2 := sqrt (normSqQ vec2)
  if norm1 = 0 ∨ norm2 = 0 then some 0
  else fdiv dot_product (norm1 * norm2)

/-! ## `RerankerComponent.rerank` (`src/components/reranker.py`)

The cross-encoder call `self.model.predict(pairs)` is abstracted as a
`PredictOutcome`: either it raises or it returns one score per pair.  The
function both returns a list and mutates the dicts of the caller's input
list in place, so the embedding returns the pair
(returned list, caller's list after the call). -/

/-- The mutable flags and configuration of a `RerankerComponent`. -/
structure RerankerState where
  use_reranker : Bool
  is_initialized : Bool
  top_k : ℕ
deriving DecidableEq, Repr

/-- Outcome of the opaque cross-encoder scoring call. -/
inductive PredictOutcome where
  | raises : PredictOutcome
  | ok : List ℚ → PredictOutcome
deriving DecidableEq, Repr

/-- Python `top_k or self.top_k`: `None` and `0` are falsy and fall back to
the configured value. -/
def effTopK : Option ℕ → ℕ → ℕ
  | none, cfg => cfg
  | some 0, cfg => cfg
  | some (k + 1), _ => k + 1

/-- The in-place annotation loop
`for doc, score in zip(documents, scores): doc['rerank_score'] = score`:
dicts covered by the zip gain the score, the rest are unchanged. -/
def annotate (docs : List Doc) (scores : List ℚ) : List Doc :=
  List.zipWith (fun d s => { d with rerank_score := some s }) docs scores
    ++ docs.drop scores.length

/-- `RerankerComponent.rerank`.  Returns `(returned list, caller's input
list after the call)`. -/
def rerank (st : RerankerState) (pout : PredictOutcome) (documents : List Doc)
    (top_k : Option ℕ) : List Doc × List Doc :=
  if ¬ (st.use_reranker = true ∧ st.is_initialized = true) then
    (documents.take (effTopK top_k st.top_k), documents)
  else if documents.isEmpty then ([], documents)
  else
    match pout with
    | .raises => (documents.take (effTopK top_k st.top_k), documents)
    | .ok scores =>
      let annotated := annotate documents scores
      let reranked_docs := sortDesc rerankKey annotated
      (reranked_docs.take (effTopK top_k st.top_k), annotated)

/-! ## `LLMComponent` (`src/components/llm_inference.py`) -/

/-- One conversation turn as handed to the pipeline. -/
structure Turn where
  role : String
  content : String
deriving DecidableEq, Repr

/-- `LLMComponent._build_system_prompt`. -/
def build_system_prompt : String :=
  "You are an IIITM Gwalior information assistant.\nAnswer questions using ONLY the CONTEXT below. Be brief and accurate.\nIf the answer isn\x27t in the CONTEXT, say \"I don\x27t have that information.\"\nDo NOT start with \"According to\" or \"Based on\" - answer directly."

/-- The score annotation of a context block: rerank score if present, else
similarity, else nothing. -/
def scoreInfo (doc : Doc) : String :=
  match doc.rerank_score with
  | some r => " (relevance: " ++ fmt3 r ++ ")"
  | none =>
    match doc.similarity with
    | some s => " (similarity: " ++ fmt3 s ++ ")"
    | none => ""

/-- One rendered source block of the context (1-based ordinal `i`). -/
def renderBlock (i : ℕ) (doc : Doc) : String :=
  "\n[Source " ++ toString i ++ ": " ++ doc.title.getD "Unknown" ++ scoreInfo doc
    ++ "]\n" ++ strTake doc.content 600

/-- The ordered documents `_format_rag_context` renders: the input order
when `use_rerank_order` is set, else a defensive stable sort by similarity
descending; in both cases only the first five. -/
def contextDocs (ragResults : List Doc) (useRerankOrder : Bool) : List Doc :=
  (if useRerankOrder then ragResults else sortDesc simKey ragResults).take 5

/-- `LLMComponent._format_rag_context`. -/
def format_rag_context (ragResults : List Doc) (useRerankOrder : Bool) : String :=
  if ragResults.isEmpty then ""
  else
    joinNL ("CONTEXT:" ::
      (List.enumFrom 1 (contextDocs ragResults useRerankOrder)).map
        fun p => renderBlock p.1 p.2)

/-- `LLMComponent._build_prompt`.  The `conversation_history` argument is
accepted but never read. -/
def build_prompt (user_query : String) (rag_context : String)
    (_conversation_history : Option (List Turn)) : String :=
  joinNL ([build_system_prompt]
    ++ (if rag_context = "" then [] else ["\n" ++ rag_context])
    ++ ["\n\nQuestion: " ++ user_query, "Answer:"])

/-! ### `_post_process_response`

Stage 1 truncates at leak markers, stage 2 is the
`while "\x5cn\x5cn\x5cn" in text` replace loop, stage 3 strips, stage 4
removes a disallowed preamble (testing phrases against the stale lowercase
copy taken before the loop). -/

/-- The leak markers, in the order the code truncates at them. -/
def leakMarkers : List (List Char) :=
  ["User:".data, "Assistant:".data, "CONTEXT".data, "===".data, "[Document".data]

/-- One guarded truncation: `if marker in text: text = text.split(marker)[0]`. -/
def truncStep (text : List Char) (m : List Char) : List Char :=
  if m <:+: text then splitHead m text else text

/-- The marker-truncation loop of `_post_process_response`. -/
def truncMarkers (l : List Char) : List Char :=
  leakMarkers.foldl truncStep l

/-- One pass of Python `text.replace("\x5cn\x5cn\x5cn", "\x5cn\x5cn")`:
replace non-overlapping occurrences left to right. -/
def rep3 : List Char → List Char
  | '\n' :: '\n' :: '\n' :: rest => '\n' :: '\n' :: rep3 rest
  | c :: rest => c :: rep3 rest
  | [] => []

/-- Python `"\x5cn\x5cn\x5cn" in text`. -/
def hasTriple (l : List Char) : Bool :=
  decide (['\n', '\n', '\n'] <:+: l)

theorem rep3_length_le : ∀ l : List Char, (rep3 l).length ≤ l.length := by
  intro l
  induction l using rep3.induct <;> simp_all [rep3] <;> omega

theorem rep3_cons_not_triple {c : Char} {rest : List Char}
    (h : ¬ ['\n', '\n', '\n'] <+: (c :: rest)) :
    rep3 (c :: rest) = c :: rep3 rest := by
  rw [rep3.eq_2]
  intro rest1 hc hr
  subst hc
  subst hr
  exact h ⟨rest1, rfl⟩

theorem hasTriple_cons {c : Char} {rest : List Char}
    (h : hasTriple (c :: rest) = true)
    (hp : ¬ ['\n', '\n', '\n'] <+: (c :: rest)) : hasTriple rest = true := by
  simp only [hasTriple, decide_eq_true_eq] at h ⊢
  rcases List.infix_cons_iff.mp h with h2 | h2
  · exact absurd h2 hp
  · exact h2

theorem rep3_length_lt {l : List Char} (h : hasTriple l = true) :
    (rep3 l).length < l.length := by
  induction l using rep3.induct with
  | case1 rest ih =>
    have := rep3_length_le rest
    simp only [rep3, List.length_cons]
    omega
  | case2 c rest hne ih =>
    by_cases hp : ['\n', '\n', '\n'] <+: (c :: rest)
    · obtain ⟨t, ht⟩ := hp
      simp only [List.cons_append, List.nil_append, List.cons.injEq] at ht
      exact absurd ht.2.symm (fun h2 => hne t ht.1.symm h2)
    · rw [rep3_cons_not_triple hp]
      have := ih (hasTriple_cons h hp)
      simp only [List.length_cons]
      omega
  | case3 =>
    simp [hasTriple] at h

/-- The loop `while "\x5cn\x5cn\x5cn" in text: text = text.replace(...)`. -/
def loopCollapse (l : List Char) : List Char :=
  if h : hasTriple l = true then loopCollapse (rep3 l) else l
termination_by l.length
decreasing_by exact rep3_length_lt h

theorem loopCollapse_of_no_triple {l : List Char} (h : hasTriple l = false) :
    loopCollapse l = l := by
  unfold loopCollapse
  rw [dif_neg]
  simp [h]

/-- The disallowed preamble phrases, in code order. -/
def avoid_phrases : List (List Char) :=
  ["based on the context".data, "according to the provided information".data,
   "from the knowledge base".data, "the context shows".data]

/-- The preamble-removal transformation: drop through the first colon,
strip, and re-capitalize a nonempty remainder; no colon leaves the text
unchanged. -/
def avoidTransform (text : List Char) : List Char :=
  match afterColon text with
  | none => text
  | some rest =>
    let t := pyStrip rest
    if t.isEmpty then t else capFirst t

/-- One iteration of the phrase loop; `lower0` is the stale lowercase copy
taken before the loop. -/
def avoidStep (lower0 : List Char) (text : List Char) (phrase : List Char) : List Char :=
  if phrase.isPrefixOf lower0 then avoidTransform text else text

/-- The phrase loop of `_post_process_response`. -/
def applyAvoid (text : List Char) : List Char :=
  avoid_phrases.foldl (avoidStep (lowerL text)) text

/-- The character-level body of `LLMComponent._post_process_response`. -/
def ppCore (l : List Char) : List Char :=
  applyAvoid (pyStrip (loopCollapse (truncMarkers l)))

/-- `LLMComponent._post_process_response`. -/
def post_process_response (s : String) : String :=
  ⟨ppCore s.data⟩

/-! ### `_call_llm_server`, `_generate_fallback_response`, `generate_response`

The HTTP completion call is abstracted as an `LLMCallOutcome`; raising
Python code becomes `Except Unit`. -/

/-- Outcome of the `POST /v1/completions` request. -/
inductive LLMCallOutcome where
  | httpOk : List String → LLMCallOutcome
  | httpErr : ℕ → LLMCallOutcome
  | timeout : LLMCallOutcome
  | raises : LLMCallOutcome
deriving DecidableEq, Repr

/-- Python `s.strip()` on a string. -/
def stripStr (s : String) : String :=
  ⟨pyStrip s.data⟩

/-- Message returned when the server yields no usable text. -/
def noResponseMsg : String :=
  "I\x27m sorry, I couldn\x27t generate a response."

/-- Message returned on a non-200 server status. -/
def techDifficultyMsg : String :=
  "I\x27m experiencing technical difficulties. Please try again."

/-- Message returned on a request timeout. -/
def timeoutMsg : String :=
  "The request took too long. Please try a simpler question."

/-- Apology returned when neither the server nor retrieval can help. -/
def apologyMsg : String :=
  "I apologize, but I\x27m unable to process your request at the moment. The LLM server is not available and I couldn\x27t find relevant information in the knowledge base."

/-- `LLMComponent._call_llm_server`: timeouts and non-200 statuses map to
user-facing strings; an empty choice list or empty post-processed text maps
to `noResponseMsg`; any other exception re-raises. -/
def call_llm_server (outcome : LLMCallOutcome) (_prompt : String) : Except Unit String :=
  match outcome with
  | .httpOk choices =>
    match choices with
    | [] => .ok noResponseMsg
    | t :: _ =>
      let generated_text := post_process_response (stripStr t)
      .ok (if generated_text = "" then noResponseMsg else generated_text)
  | .httpErr _ => .ok techDifficultyMsg
  | .timeout => .ok timeoutMsg
  | .raises => .error ()

/-- `LLMComponent._generate_fallback_response`.  Reads `top_result['title']`
directly, which raises (`.error`) when the key is absent. -/
def generate_fallback_response (ragResults : List Doc) : Except Unit String :=
  match ragResults with
  | [] => .ok apologyMsg
  | top :: _ =>
    match top.title with
    | none => .error ()
    | some title =>
      .ok ("Based on the knowledge base: " ++ strTake top.content 200
        ++ "... (Source: " ++ title ++ ")")

/-- The collaborator outcomes a single `generate_response` call can
observe.  `useRag` is `use_rag ∧ rag_component is present`; `ragSearch` is
the outcome of the `rag_component.search(...)` call (which raises a
`TypeError` in the shipped wiring, see `ragSearchParams`); the reranker
gate mirrors `self.use_reranker and self.reranker_component and
self.reranker_component.is_initialized`. -/
structure GenEnv where
  useRag : Bool
  ragSearch : Except Unit (List Doc)
  llmUseReranker : Bool
  rerankerPresent : Bool
  rerankSt : RerankerState
  predictOut : PredictOutcome
  llmInit : Bool
  llmOut : LLMCallOutcome
deriving Repr

/-- The reranker gate of `generate_response`:
`self.use_reranker and self.reranker_component and
self.reranker_component.is_initialized`. -/
def rerankGate (env : GenEnv) : Bool :=
  env.llmUseReranker && env.rerankerPresent && env.rerankSt.is_initialized

/-- The retrieval-and-reranking phase of `generate_response`: produces the
documents used for the context and the `used_reranking` flag.  Two logging
f-strings inside this phase can themselves raise: on a nonempty search
result the top-similarity log reads `rag_results[0]['similarity']`
(a `KeyError` when the key is absent), and on a nonempty rerank result the
rerank-score log formats `rag_results[0].get('rerank_score', 'N/A')` with
`:.3f` — a `ValueError` when the top document carries no `rerank_score`,
which is exactly what a degraded rerank under a passing gate returns. -/
def ragPhase (env : GenEnv) : Except Unit (List Doc × Bool) :=
  if env.useRag then
    match env.ragSearch with
    | .error e => .error e
    | .ok results =>
      match results with
      | [] => .ok ([], false)
      | top :: rest =>
        match top.similarity with
        | none => .error ()
        | some _ =>
          if rerankGate env then
            match (rerank env.rerankSt env.predictOut (top :: rest) (some 5)).1 with
            | [] => .ok ([], false)
            | d :: ds =>
              match d.rerank_score with
              | none => .error ()
              | some _ => .ok (d :: ds, true)
          else .ok ((top :: rest).take 5, false)
  else .ok ([], false)

/-- The `rag_results` value handed to the fallback generator. -/
def fallbackDocs (env : GenEnv) : List Doc :=
  match ragPhase env with
  | .error _ => []
  | .ok (docs, _) => if env.useRag then docs else []

/-- `LLMComponent.generate_response`.  Any exception escaping the body is
caught by the top-level handler, which returns `none`. -/
def generate_response (env : GenEnv) (prompt : String)
    (history : Option (List Turn)) : Option String :=
  match ragPhase env with
  | .error _ => none
  | .ok (docs, used) =>
    let rag_context := format_rag_context docs used
    let full_prompt := build_prompt prompt rag_context history
    let result : Except Unit String :=
      if env.llmInit then call_llm_server env.llmOut full_prompt
      else generate_fallback_response (if env.useRag then docs else [])
    match result with
    | .ok s => some s
    | .error _ => none

/-! ## `RAGComponent.search` call compatibility (`src/components/rag.py`)

`generate_response` invokes `self.rag_component.search(prompt, limit=20,
similarity_threshold=0.3)`.  We record the keyword parameters accepted by
`RAGComponent.search` and the keywords passed at this call site; a Python
call whose keywords are not all accepted raises a `TypeError`. -/

/-- The parameters of `RAGComponent.search`. -/
def ragSearchParams : List String :=
  ["self", "query", "limit", "category", "language"]

/-- The keyword arguments `generate_response` passes to `search`. -/
def ragSearchCallKeywords : List String :=
  ["limit", "similarity_threshold"]

/-- The keyword arguments of `KnowledgeBaseRepository.search_similar_documents`,
the retrieval entry point that does accept a threshold. -/
def repoSearchParams : List String :=
  ["self", "query_embedding", "k", "filter_metadata", "similarity_threshold"]

/-- Python keyword-argument check: a call is well-formed only when every
keyword names a parameter. -/
def kwargsAccepted (params kwargs : List String) : Bool :=
  kwargs.all fun kw => params.contains kw

/-! ## Specification-side post-processing

These definitions follow the wording of the specification sentence on
post-processing, for comparison with the embedded code: truncate at the
first occurrence of each listed leak marker, collapse every run of three
or more newlines down to two, strip, and apply the single preamble rule. -/

/-- Spec-side marker truncation: for each marker in turn, cut the text at
the first occurrence of that marker. -/
def specTrunc (markers : List (List Char)) (l : List Char) : List Char :=
  markers.foldl (fun t m => splitHead m t) l

/-- Spec-side collapse: every maximal run of three or more newlines becomes
exactly two newlines. -/
def specCollapse : List Char → List Char
  | [] => []
  | c :: rest =>
    if c = '\n' ∧ rest.take 2 = ['\n', '\n'] then specCollapse rest
    else c :: specCollapse rest

/-- Spec-side preamble rule: one conditional on "begins (case-insensitively)
with a disallowed phrase", applying the drop-through-colon transformation. -/
def specAvoid (text : List Char) : List Char :=
  if avoid_phrases.any (fun p => p.isPrefixOf (lowerL text)) then avoidTransform text
  else text

/-- The post-processing pipeline as the specification words it, over a
given marker list. -/
def specPostProcessWith (markers : List (List Char)) (s : String) : String :=
  ⟨specAvoid (pyStrip (specCollapse (specTrunc markers s.data)))⟩

/-- The marker list the claim states (without `"Assistant:"`). -/
def specMarkers4 : List (List Char) :=
  ["User:".data, "CONTEXT".data, "===".data, "[Document".data]

/-! ### The marker loop equals spec-side truncation -/

theorem truncStep_eq (text m : List Char) : truncStep text m = splitHead m text := by
  unfold truncStep
  by_cases h : m <:+: text
  · rw [if_pos h]
  · rw [if_neg h, splitHead_of_not_infix h]

theorem truncMarkers_eq_specTrunc (markers : List (List Char)) (l : List Char) :
    markers.foldl truncStep l = specTrunc markers l := by
  unfold specTrunc
  induction markers generalizing l with
  | nil => rfl
  | cons m ms ih =>
    simp only [List.foldl_cons, truncStep_eq, ih]

/-! ### The replace loop equals spec-side collapse -/

theorem not_triple_prefix_of_hne {c : Char} {rest : List Char}
    (hne : ∀ rest1, c = '\n' → rest = '\n' :: '\n' :: rest1 → False) :
    ¬ ['\n', '\n', '\n'] <+: (c :: rest) := by
  rintro ⟨t, ht⟩
  simp only [List.cons_append, List.nil_append, List.cons.injEq] at ht
  exact hne t ht.1.symm ht.2.symm

theorem head?_rep3 (l : List Char) : (rep3 l).head? = l.head? := by
  induction l using rep3.induct with
  | case1 rest ih => rfl
  | case2 c rest hne ih =>
    rw [rep3_cons_not_triple (not_triple_prefix_of_hne hne)]
    simp
  | case3 => rfl

theorem specCollapse_of_no_triple {l : List Char} (h : hasTriple l = false) :
    specCollapse l = l := by
  induction l with
  | nil => rfl
  | cons c rest ih =>
    have hcond : ¬ (c = '\n' ∧ rest.take 2 = ['\n', '\n']) := by
      rintro ⟨hc, htake⟩
      subst hc
      obtain ⟨r, hr⟩ : ∃ r, rest = '\n' :: '\n' :: r := by
        cases rest with
        | nil => simp at htake
        | cons a t =>
          cases t with
          | nil => simp at htake
          | cons b u =>
            simp only [List.take_succ_cons, List.take_zero, List.cons.injEq,
              and_true] at htake
            exact ⟨u, by rw [htake.1, htake.2]⟩
      subst hr
      simp only [hasTriple, decide_eq_false_iff_not] at h
      exact h ⟨[], r, rfl⟩
    rw [specCollapse, if_neg hcond]
    have hrest : hasTriple rest = false := by
      simp only [hasTriple, decide_eq_false_iff_not] at h ⊢
      intro h2
      exact h (List.infix_cons_iff.mpr (Or.inr h2))
    rw [ih hrest]

theorem spec_run (t : List Char) (ht : t.head? ≠ some '\n') :
    ∀ k, specCollapse (List.replicate k '\n' ++ t)
      = List.replicate (min k 2) '\n' ++ specCollapse t := by
  have hone : ∀ u : List Char, u.head? ≠ some '\n' →
      specCollapse ('\n' :: u) = '\n' :: specCollapse u := by
    intro u hu
    rw [specCollapse, if_neg]
    rintro ⟨-, htake⟩
    cases u with
    | nil => simp at htake
    | cons a v =>
      simp only [List.take_succ_cons, List.cons.injEq] at htake
      exact hu (by simp [htake.1])
  intro k
  induction k using Nat.strong_induction_on with
  | _ k ih =>
    match k with
    | 0 => simp
    | 1 =>
      simpa using hone t ht
    | 2 =>
      have h1 : specCollapse ('\n' :: t) = '\n' :: specCollapse t := hone t ht
      have h2 : specCollapse ('\n' :: '\n' :: t) = '\n' :: specCollapse ('\n' :: t) := by
        rw [specCollapse, if_neg]
        rintro ⟨-, htake⟩
        cases t with
        | nil => simp at htake
        | cons a v =>
          simp only [List.take_succ_cons, List.cons.injEq] at htake
          exact ht (by simp [htake.2.1])
      simpa [h1] using h2
    | (m + 3) =>
      have hrep : List.replicate (m + 3) '\n' ++ t
          = '\n' :: (List.replicate (m + 2) '\n' ++ t) := by
        simp [List.replicate_succ]
      rw [hrep, specCollapse, if_pos]
      · rw [ih (m + 2) (by omega)]
        have : min (m + 3) 2 = 2 := by omega
        have h2 : min (m + 2) 2 = 2 := by omega
        rw [this, h2]
      · constructor
        · rfl
        · simp [List.replicate_succ]

theorem cons_cons_replicate (n : ℕ) (x : List Char) :
    '\n' :: '\n' :: (List.replicate n '\n' ++ x)
      = List.replicate n '\n' ++ ('\n' :: '\n' :: x) := by
  induction n with
  | zero => rfl
  | succ m ih => simp only [List.replicate_succ, List.cons_append, ← ih]

theorem rep3_run (t : List Char) (ht : t.head? ≠ some '\n') :
    ∀ k, rep3 (List.replicate k '\n' ++ t)
      = List.replicate (k - k / 3) '\n' ++ rep3 t := by
  have hnotrip : ∀ u : List Char, u.head? ≠ some '\n' →
      ¬ ['\n', '\n', '\n'] <+: ('\n' :: '\n' :: u) := by
    intro u hu
    rintro ⟨s, hs⟩
    simp only [List.cons_append, List.nil_append, List.cons.injEq, true_and] at hs
    exact hu (by simp [← hs])
  have hnotrip1 : ∀ u : List Char, u.head? ≠ some '\n' →
      ¬ ['\n', '\n', '\n'] <+: ('\n' :: u) := by
    intro u hu
    rintro ⟨s, hs⟩
    simp only [List.cons_append, List.nil_append, List.cons.injEq, true_and] at hs
    exact hu (by simp [← hs])
  intro k
  induction k using Nat.strong_induction_on with
  | _ k ih =>
    match k with
    | 0 => simp
    | 1 =>
      simpa using rep3_cons_not_triple (hnotrip1 t ht)
    | 2 =>
      have h2 : rep3 ('\n' :: '\n' :: t) = '\n' :: rep3 ('\n' :: t) :=
        rep3_cons_not_triple (hnotrip t ht)
      have h1 : rep3 ('\n' :: t) = '\n' :: rep3 t :=
        rep3_cons_not_triple (hnotrip1 t ht)
      simpa [h1] using h2
    | (m + 3) =>
      have hrep : List.replicate (m + 3) '\n' ++ t
          = '\n' :: '\n' :: '\n' :: (List.replicate m '\n' ++ t) := by
        simp [List.replicate_succ]
      rw [hrep, rep3.eq_1, ih m (by omega)]
      have harith : m + 3 - (m + 3) / 3 = (m - m / 3) + 2 := by omega
      rw [harith, List.replicate_add]
      simp only [List.replicate_succ, List.replicate, List.cons_append,
        List.nil_append, List.append_assoc]
      rw [cons_cons_replicate]

theorem head?_dropWhileNL (l : List Char) :
    (l.dropWhile fun c => c = '\n').head? ≠ some '\n' := by
  induction l with
  | nil => simp
  | cons c rest ih =>
    by_cases hc : c = '\n'
    · simpa [List.dropWhile, hc] using ih
    · simpa [List.dropWhile, hc] using hc

theorem runDecomp (l : List Char) :
    l = List.replicate (l.takeWhile fun c => c = '\n').length '\n'
      ++ (l.dropWhile fun c => c = '\n') := by
  have h1 : l.takeWhile (fun c => c = '\n')
      = List.replicate (l.takeWhile fun c => c = '\n').length '\n' := by
    refine List.eq_replicate_of_mem ?_
    intro b hb
    have := List.mem_takeWhile_imp hb
    simpa using this
  conv_lhs => rw [← List.takeWhile_append_dropWhile (p := fun c => c = '\n') (l := l)]
  rw [← h1]

theorem spec_rep3 (l : List Char) : specCollapse (rep3 l) = specCollapse l := by
  generalize hn : l.length = n
  induction n using Nat.strong_induction_on generalizing l with
  | _ n ih =>
    subst hn
    set k := (l.takeWhile fun c => c = '\n').length with hk
    set t := (l.dropWhile fun c => c = '\n') with htt
    have hdec : l = List.replicate k '\n' ++ t := runDecomp l
    have hth : t.head? ≠ some '\n' := head?_dropWhileNL l
    match hkc : k with
    | 0 =>
      have hlt : l = t := by simpa using hdec
      cases hct : t with
      | nil => simp [hlt, hct, rep3, specCollapse]
      | cons c rest =>
        have hc : c ≠ '\n' := by
          rw [hct] at hth
          simpa using hth
        have h1 : rep3 l = c :: rep3 rest := by
          rw [hlt, hct]
          exact rep3_cons_not_triple (by
            rintro ⟨s, hs⟩
            simp only [List.cons_append, List.nil_append, List.cons.injEq] at hs
            exact hc hs.1.symm)
        have h2 : specCollapse (c :: rep3 rest) = c :: specCollapse (rep3 rest) := by
          rw [specCollapse, if_neg]
          rintro ⟨hceq, -⟩
          exact hc hceq
        have h3 : specCollapse (c :: rest) = c :: specCollapse rest := by
          rw [specCollapse, if_neg]
          rintro ⟨hceq, -⟩
          exact hc hceq
        have hlen : rest.length < l.length := by
          rw [hlt, hct]
          simp
        rw [h1, h2, hlt, hct, h3, ih rest.length hlen rest rfl]
    | (kk + 1) =>
      have hlen : t.length < l.length := by
        conv_rhs => rw [hdec]
        simp [List.length_append]
      have h1 : rep3 l = List.replicate (kk + 1 - (kk + 1) / 3) '\n' ++ rep3 t := by
        conv_lhs => rw [hdec]
        exact rep3_run t hth (kk + 1)
      have hth2 : (rep3 t).head? ≠ some '\n' := by
        rw [head?_rep3]
        exact hth
      rw [h1, spec_run (rep3 t) hth2, ih t.length hlen t rfl]
      conv_rhs => rw [hdec]
      rw [spec_run t hth (kk + 1)]
      have : min (kk + 1 - (kk + 1) / 3) 2 = min (kk + 1) 2 := by omega
      rw [this]

theorem loopCollapse_eq_specCollapse (l : List Char) :
    loopCollapse l = specCollapse l := by
  generalize hn : l.length = n
  induction n using Nat.strong_induction_on generalizing l with
  | _ n ih =>
    subst hn
    by_cases h : hasTriple l = true
    · unfold loopCollapse
      rw [dif_pos h]
      rw [ih (rep3 l).length (rep3_length_lt h) (rep3 l) rfl, spec_rep3]
    · have hf : hasTriple l = false := by simpa using h
      rw [loopCollapse_of_no_triple hf, specCollapse_of_no_triple hf]

/-! ### The phrase loop equals the spec-side single conditional -/

theorem foldl_avoid_of_none {lower0 text : List Char} {ps : List (List Char)}
    (h : ∀ p ∈ ps, p.isPrefixOf lower0 = false) :
    ps.foldl (avoidStep lower0) text = text := by
  induction ps generalizing text with
  | nil => rfl
  | cons p ps ih =>
    simp only [List.foldl_cons]
    rw [show avoidStep lower0 text p = text from by
      unfold avoidStep
      simp [h p (List.mem_cons_self p ps)]]
    exact ih fun q hq => h q (List.mem_cons_of_mem p hq)

theorem foldl_avoid_eq (lower0 text : List Char) (ps : List (List Char))
    (hinc : ps.Pairwise fun p q =>
      ¬ (p.isPrefixOf lower0 = true ∧ q.isPrefixOf lower0 = true)) :
    ps.foldl (avoidStep lower0) text
      = if ps.any (fun p => p.isPrefixOf lower0) then avoidTransform text else text := by
  induction ps generalizing text with
  | nil => rfl
  | cons p ps ih =>
    rcases List.pairwise_cons.mp hinc with ⟨hhead, htail⟩
    simp only [List.foldl_cons, List.any_cons]
    by_cases hp : p.isPrefixOf lower0 = true
    · rw [show avoidStep lower0 text p = avoidTransform text from by
        unfold avoidStep
        simp [hp]]
      rw [foldl_avoid_of_none fun q hq => by
        have := hhead q hq
        rcases hq2 : q.isPrefixOf lower0 with _ | _
        · rfl
        · exact absurd ⟨hp, hq2⟩ this]
      simp [hp]
    · rw [show avoidStep lower0 text p = text from by
        unfold avoidStep
        simp [hp]]
      rw [ih text htail]
      simp only [Bool.not_eq_true] at hp
      simp [hp]

theorem avoid_phrases_pairwise (lower0 : List Char) :
    avoid_phrases.Pairwise fun p q =>
      ¬ (p.isPrefixOf lower0 = true ∧ q.isPrefixOf lower0 = true) := by
  have hcomp : ∀ p q : List Char, ¬ p <+: q → ¬ q <+: p →
      ¬ (p.isPrefixOf lower0 = true ∧ q.isPrefixOf lower0 = true) := by
    intro p q hpq hqp ⟨h1, h2⟩
    rcases List.prefix_or_prefix_of_prefix (List.isPrefixOf_iff_prefix.mp h1)
        (List.isPrefixOf_iff_prefix.mp h2) with h | h
    · exact hpq h
    · exact hqp h
  unfold avoid_phrases
  refine List.Pairwise.cons ?_ (List.Pairwise.cons ?_ (List.Pairwise.cons ?_ ?_))
  · intro q hq
    fin_cases hq <;> exact hcomp _ _ (by decide) (by decide)
  · intro q hq
    fin_cases hq <;> exact hcomp _ _ (by decide) (by decide)
  · intro q hq
    fin_cases hq <;> exact hcomp _ _ (by decide) (by decide)
  · exact List.pairwise_singleton _ _

theorem applyAvoid_eq_specAvoid (text : List Char) :
    applyAvoid text = specAvoid text := by
  unfold applyAvoid specAvoid
  exact foldl_avoid_eq (lowerL text) text avoid_phrases
    (avoid_phrases_pairwise (lowerL text))

/-! ### `_post_process_response` equals the spec-side composition over the
five markers -/

theorem post_process_response_spec (s : String) :
    post_process_response s = specPostProcessWith leakMarkers s := by
  unfold post_process_response specPostProcessWith ppCore truncMarkers
  rw [truncMarkers_eq_specTrunc, loopCollapse_eq_specCollapse,
    applyAvoid_eq_specAvoid]

/-! ## Helper lemmas for the claims -/

/-- Forgetting the rerank annotation of a result dict. -/
def clearScore (d : Doc) : Doc :=
  { d with rerank_score := none }

theorem zipWith_left_const {α β γ : Type} (g : α → γ) (as : List α) (bs : List β) :
    List.zipWith (fun a _ => g a) as bs = (as.take bs.length).map g := by
  induction as generalizing bs with
  | nil => simp
  | cons a as ih =>
    cases bs with
    | nil => simp
    | cons b bs => simp [ih]

theorem annotate_map_clearScore (docs : List Doc) (scores : List ℚ) :
    (annotate docs scores).map clearScore = docs.map clearScore := by
  unfold annotate
  rw [List.map_append, List.map_zipWith]
  have h1 : List.zipWith
      (fun (x : Doc) (y : ℚ) => clearScore { x with rerank_score := some y }) docs scores
      = (docs.take scores.length).map clearScore :=
    zipWith_left_const clearScore docs scores
  rw [h1, ← List.map_append, List.take_append_drop]

theorem annotate_length (docs : List Doc) (scores : List ℚ) :
    (annotate docs scores).length = docs.length := by
  unfold annotate
  simp only [List.length_append, List.length_zipWith, List.length_drop]
  omega

theorem annotate_getElem (docs : List Doc) (scores : List ℚ) (i : ℕ)
    (h1 : i < docs.length) (h2 : i < scores.length) :
    (annotate docs scores)[i]?
      = some { docs.get ⟨i, h1⟩ with rerank_score := some (scores.get ⟨i, h2⟩) } := by
  unfold annotate
  rw [List.getElem?_append_left (by simp [List.length_zipWith]; omega)]
  rw [List.getElem?_zipWith']
  simp [List.getElem?_eq_getElem h1, List.getElem?_eq_getElem h2]

theorem append_ne_empty_left {a : String} (b : String) (h : a ≠ "") :
    a ++ b ≠ "" := by
  intro hcontr
  have h2 := congrArg String.data hcontr
  simp only [String.data_append] at h2
  rcases List.append_eq_nil.mp (by simpa using h2) with ⟨ha, -⟩
  exact h (String.ext (by simpa using ha))

/-! ## Concrete sample data used by witnesses and counterexamples -/

/-- Sample result with similarity 3 and no rerank score. -/
def docA : Doc := { title := some "A", content := "alpha", similarity := some 3, rerank_score := none }

/-- Sample result with similarity 2 and no rerank score. -/
def docB : Doc := { title := some "B", content := "beta", similarity := some 2, rerank_score := none }

/-- Sample result with similarity 1. -/
def docC : Doc := { title := some "C", content := "gamma", similarity := some 1, rerank_score := none }

/-- Sample result with similarity 1/2. -/
def docD : Doc := { title := some "D", content := "delta", similarity := some (1/2), rerank_score := none }

/-- Sample result with similarity 1/4. -/
def docE : Doc := { title := some "E", content := "epsilon", similarity := some (1/4), rerank_score := none }

/-- Five sample retrieval results in descending-similarity order. -/
def fiveDocs : List Doc := [docA, docB, docC, docD, docE]

/-- A 600-character content string. -/
def bigContent : String := ⟨List.replicate 600 'a'⟩

/-- A result carrying 600 characters of content and no scores. -/
def bigDoc : Doc := { title := none, content := bigContent, similarity := none, rerank_score := none }

/-! ## Claim C2: context ordering -/

/-- C2: when reranking was applied (`use_rerank_order = true`) the context
presents the documents in exactly the given (reranker output) order for
EVERY input order — in particular for orders that disagree with the
similarity ranking — so the reranked order is never re-sorted by the
similarity score; when reranking was not applied, the defensive similarity
sort leaves the retriever's descending-similarity top-k order unchanged, so
the final order equals the retriever's top-k order. -/
theorem C2_context_order (docs : List Doc) :
    contextDocs docs true = docs.take 5 ∧
    (docs.Sorted (keyGe simKey) → contextDocs docs false = docs.take 5) := by
  constructor
  · rfl
  · intro hsorted
    unfold contextDocs
    rw [if_neg (by simp), sortDesc_eq_self simKey hsorted]

/-- C2 witness: a concrete list that is NOT in descending-similarity order
(similarities 2 then 3) is rendered as-is under the rerank flag, and a
concrete descending-similarity list is rendered as-is without it. -/
theorem C2_witness :
    contextDocs [docB, docA] true = [docB, docA].take 5 ∧
    contextDocs [docA, docB] false = [docA, docB].take 5 :=
  ⟨(C2_context_order [docB, docA]).1, (C2_context_order [docA, docB]).2 (by decide)⟩

/-! ## Claim C3: context size -/

/-- C3 counterexample: five 600-character documents assemble to a context
of more than 2000 characters, so no 1500–2000 character budget bounds the
assembled context. -/
theorem joinNL_length_ge (parts : List String) :
    (parts.map String.length).sum ≤ (joinNL parts).length := by
  induction parts with
  | nil => simp [joinNL]
  | cons s rest ih =>
    cases rest with
    | nil => simp [joinNL]
    | cons t ts =>
      rw [show joinNL (s :: t :: ts) = s ++ "\n" ++ joinNL (t :: ts) from rfl]
      simp only [List.map_cons, List.sum_cons, String.length_append] at ih ⊢
      rw [show ("\n" : String).length = 1 from rfl]
      omega

theorem strTake_bigContent : strTake bigContent 600 = bigContent := by
  unfold strTake
  rw [show bigContent.data = List.replicate 600 'a' from rfl, List.take_replicate]
  rfl

theorem renderBlock_bigDoc_length (i : ℕ) :
    (renderBlock i bigDoc).length = 620 + (toString i).length := by
  unfold renderBlock
  rw [show bigDoc.title.getD "Unknown" = "Unknown" from rfl,
    show scoreInfo bigDoc = "" from rfl,
    show bigDoc.content = bigContent from rfl, strTake_bigContent]
  simp only [String.length_append]
  rw [show ("\n[Source " : String).length = 9 from rfl,
    show (": " : String).length = 2 from rfl,
    show ("Unknown" : String).length = 7 from rfl,
    show ("" : String).length = 0 from rfl,
    show ("]\n" : String).length = 2 from rfl,
    show bigContent.length = 600 from by
      rw [show bigContent.length = (List.replicate 600 'a').length from rfl,
        List.length_replicate]]
  omega

theorem C3_counterexample :
    2000 < (format_rag_context (List.replicate 5 bigDoc) true).length := by
  have h3 : contextDocs (List.replicate 5 bigDoc) true = List.replicate 5 bigDoc := by
    unfold contextDocs
    rw [if_pos rfl, List.take_replicate]
    simp
  have h2 : format_rag_context (List.replicate 5 bigDoc) true
      = joinNL ["CONTEXT:", renderBlock 1 bigDoc, renderBlock 2 bigDoc,
          renderBlock 3 bigDoc, renderBlock 4 bigDoc, renderBlock 5 bigDoc] := by
    unfold format_rag_context
    rw [if_neg (by simp), h3]
    rfl
  rw [h2]
  have hge := joinNL_length_ge ["CONTEXT:", renderBlock 1 bigDoc, renderBlock 2 bigDoc,
    renderBlock 3 bigDoc, renderBlock 4 bigDoc, renderBlock 5 bigDoc]
  simp only [List.map_cons, List.map_nil, List.sum_cons, List.sum_nil,
    renderBlock_bigDoc_length] at hge
  rw [show ("CONTEXT:" : String).length = 8 from rfl] at hge
  rw [show (toString (1 : ℕ)).length = 1 from rfl, show (toString (2 : ℕ)).length = 1 from rfl,
    show (toString (3 : ℕ)).length = 1 from rfl, show (toString (4 : ℕ)).length = 1 from rfl,
    show (toString (5 : ℕ)).length = 1 from rfl] at hge
  omega

/-- C3 (amended): the context formatter has no total character budget; the
only caps are structural — at most the first five documents are rendered,
and each document's content is truncated to at most 600 characters. -/
theorem C3_context_caps (docs : List Doc) (flag : Bool) :
    (contextDocs docs flag).length ≤ 5 ∧
    ∀ d, d ∈ contextDocs docs flag → (strTake d.content 600).length ≤ 600 := by
  constructor
  · unfold contextDocs
    simp [List.length_take]
  · intro d _
    have h : (strTake d.content 600).length = (d.content.data.take 600).length := rfl
    rw [h]
    simp [List.length_take]

/-- C3 witness: the caps evaluated on a concrete input. -/
theorem C3_witness : (strTake docA.content 600).length ≤ 600 :=
  (C3_context_caps [docA] true).2 docA (by decide)

/-! ## Claim C5: reranker degradation -/

/-- C5 counterexample: with `top_k = 0`, the degraded reranker does not
return the first `top_k` (= zero) entries: Python's `top_k or self.top_k`
treats `0` as falsy and substitutes the configured default. -/
theorem C5_counterexample :
    (rerank ⟨false, false, 5⟩ .raises [docA] (some 0)).1 = [docA] ∧
    (rerank ⟨false, false, 5⟩ .raises [docA] (some 0)).1 ≠ ([docA] : List Doc).take 0 := by
  constructor
  · rfl
  · decide

/-- C5 (amended): if the reranker is disabled, uninitialized, or its
scoring call raises, `rerank` returns exactly the first `top_k` entries of
the input list unchanged (and does not touch the input) for every positive
`top_k`; a `top_k` of `None` (and, by Python truthiness, `0`) falls back to
the configured default. -/
theorem C5_rerank_degradation (st : RerankerState) (pout : PredictOutcome)
    (docs : List Doc)
    (hdeg : st.use_reranker = false ∨ st.is_initialized = false ∨ pout = PredictOutcome.raises) :
    (∀ k : ℕ, 0 < k → rerank st pout docs (some k) = (docs.take k, docs)) ∧
    rerank st pout docs none = (docs.take st.top_k, docs) := by
  have heff : ∀ k : ℕ, 0 < k → effTopK (some k) st.top_k = k := by
    intro k hk
    match k, hk with
    | (m + 1), _ => rfl
  by_cases hgate : st.use_reranker = true ∧ st.is_initialized = true
  · have hpo : pout = PredictOutcome.raises := by
      rcases hdeg with h | h | h
      · rw [hgate.1] at h; cases h
      · rw [hgate.2] at h; cases h
      · exact h
    subst hpo
    constructor
    · intro k hk
      unfold rerank
      rw [if_neg (by simp [hgate.1, hgate.2])]
      by_cases hemp : docs.isEmpty
      · rw [if_pos hemp]
        rw [List.isEmpty_iff.mp hemp]
        simp
      · rw [if_neg hemp, heff k hk]
    · unfold rerank
      rw [if_neg (by simp [hgate.1, hgate.2])]
      by_cases hemp : docs.isEmpty
      · rw [if_pos hemp]
        rw [List.isEmpty_iff.mp hemp]
        simp
      · rw [if_neg hemp]
        rfl
  · constructor
    · intro k hk
      unfold rerank
      rw [if_pos hgate, heff k hk]
    · unfold rerank
      rw [if_pos hgate]
      rfl

/-- C5 witness: the end-to-end scenario of the spec — reranker forced to
throw on five documents with `top_k = 3` returns exactly the first three,
unmodified. -/
theorem C5_witness : (rerank ⟨true, true, 5⟩ .raises fiveDocs (some 3)).1 = [docA, docB, docC] := by
  rw [(C5_rerank_degradation ⟨true, true, 5⟩ .raises fiveDocs (Or.inr (Or.inr rfl))).1 3 (by decide)]
  rfl

/-! ## Claim C6: retrieval ordering -/

/-- C6: retrieval results are ordered by non-increasing similarity, and
ties between equal scores keep the original storage order — the filtered
subsequence at any score value is a prefix of the corresponding
subsequence of the scored rows in storage order. -/
theorem C6_search_order (simf : List ℚ → List ℚ → ℚ) (queryEmbedding : List ℚ)
    (rows : List Row) (limit : ℕ) :
    (search_documents simf queryEmbedding rows limit).Sorted (keyGe simKey) ∧
    ∀ s : ℚ,
      (search_documents simf queryEmbedding rows limit).filter (fun d => simKey d = s)
        <+: ((rows.map fun r => rowToDoc r (simf queryEmbedding r.embedding)).filter
              (fun d => simKey d = s)) := by
  constructor
  · unfold search_documents
    exact List.Pairwise.sublist (List.take_sublist _ _) (sortDesc_sorted simKey _)
  · intro s
    unfold search_documents
    have h1 : (sortDesc simKey (rows.map fun r => rowToDoc r (simf queryEmbedding r.embedding))).filter
        (fun d => decide (simKey d = s))
        = (rows.map fun r => rowToDoc r (simf queryEmbedding r.embedding)).filter
            (fun d => decide (simKey d = s)) := by
      refine filter_sortDesc simKey _ ?_ _
      intro a b ha hb
      have ha2 : simKey a = s := of_decide_eq_true ha
      have hb2 : simKey b = s := of_decide_eq_true hb
      unfold keyGe
      rw [ha2, hb2]
    rw [← h1]
    exact filter_take_isPre _ _ _

/-! ## Claim C7: reranker frame effect -/

/-- C7 counterexample: a successful rerank call mutates the caller's input
list — the original dict gains a `rerank_score` key, so the input list's
elements are not unchanged after the call. -/
theorem C7_counterexample :
    (rerank ⟨true, true, 5⟩ (.ok [(2 : ℚ)]) [docA] (some 3)).2 ≠ [docA] := by
  decide

/-- C7 (amended): on a successful scoring call, `rerank` annotates every
input dict (not only the surviving ones) in place with its rerank score:
afterwards the caller's list has the same length and order, each element
agrees with the original on everything except `rerank_score`, and each
element covered by the score list carries its score. -/
theorem C7_rerank_mutates (st : RerankerState) (docs : List Doc) (scores : List ℚ)
    (k : Option ℕ) (hu : st.use_reranker = true) (hi : st.is_initialized = true)
    (hne : docs ≠ []) :
    (rerank st (.ok scores) docs k).2 = annotate docs scores ∧
    (annotate docs scores).map clearScore = docs.map clearScore ∧
    (annotate docs scores).length = docs.length ∧
    ∀ i (h1 : i < docs.length) (h2 : i < scores.length),
      (annotate docs scores)[i]?
        = some { docs.get ⟨i, h1⟩ with rerank_score := some (scores.get ⟨i, h2⟩) } := by
  refine ⟨?_, annotate_map_clearScore docs scores, annotate_length docs scores,
    annotate_getElem docs scores⟩
  unfold rerank
  rw [if_neg (by simp [hu, hi]), if_neg (by simp [List.isEmpty_iff, hne])]

/-- C7 witness: the mutation characterized at a concrete input. -/
theorem C7_witness :
    (rerank ⟨true, true, 5⟩ (.ok [(2 : ℚ)]) [docA] (some 3)).2 = annotate [docA] [2] :=
  (C7_rerank_mutates ⟨true, true, 5⟩ [docA] [2] (some 3) rfl rfl (by decide)).1

/-! ## Claim C8: prompt structure -/

set_option maxRecDepth 4096 in
/-- C8 counterexample: a provided conversation history is not rendered into
the prompt at all — the prompt equals the no-history prompt and does not
contain the turn's content. -/
theorem C8_counterexample :
    build_prompt "hi" "" (some [{ role := "user", content := "HELLOMARKER" }])
      = build_prompt "hi" "" none ∧
    strContains (build_prompt "hi" "" (some [{ role := "user", content := "HELLOMARKER" }]))
      "HELLOMARKER" = false := by
  constructor
  · rfl
  · decide

/-- C8 (amended): the built prompt is, in order, the fixed system
instruction, the context block (omitted entirely when the context is
empty), the final question line, and the `"Answer:"` continuation cue;
the conversation-history argument is accepted but ignored, so no
conversation turns appear. -/
theorem C8_prompt_structure (q ctx : String) (hist : Option (List Turn)) :
    build_prompt q ctx hist = build_prompt q ctx none ∧
    (ctx = "" → build_prompt q ctx hist
      = build_system_prompt ++ "\n\n\nQuestion: " ++ q ++ "\nAnswer:") ∧
    (ctx ≠ "" → build_prompt q ctx hist
      = build_system_prompt ++ "\n\n" ++ ctx ++ "\n\n\nQuestion: " ++ q ++ "\nAnswer:") := by
  refine ⟨rfl, ?_, ?_⟩
  · intro h
    unfold build_prompt
    rw [if_pos h]
    simp only [List.cons_append, List.nil_append, joinNL]
    simp only [String.append_assoc]
    rw [show ("\n\n\nQuestion: " : String) = "\n" ++ "\n\nQuestion: " from rfl,
      show ("\nAnswer:" : String) = "\n" ++ "Answer:" from rfl]
    simp only [String.append_assoc]
  · intro h
    unfold build_prompt
    rw [if_neg h]
    simp only [List.cons_append, List.nil_append, joinNL]
    simp only [String.append_assoc]
    rw [show ("\n\n" : String) = "\n" ++ "\n" from rfl,
      show ("\n\n\nQuestion: " : String) = "\n" ++ "\n\nQuestion: " from rfl,
      show ("\nAnswer:" : String) = "\n" ++ "Answer:" from rfl]
    simp only [String.append_assoc]

/-- C8 witness: the nonempty-context shape at concrete inputs, with a
history supplied. -/
theorem C8_witness :
    build_prompt "q" "CTX" (some [{ role := "user", content := "h" }])
      = build_system_prompt ++ "\n\n" ++ "CTX" ++ "\n\n\nQuestion: " ++ "q" ++ "\nAnswer:" :=
  (C8_prompt_structure "q" "CTX" (some [{ role := "user", content := "h" }])).2.2 (by decide)

/-! ## Claim C9: response post-processing -/

/-- C9 counterexample: the claim's marker list omits `"Assistant:"`.  On
`"Hi Assistant: leak"` the code truncates to `"Hi"`, while the composition
the claim describes (markers `"User:"`, `"CONTEXT"`, `"==="`,
`"[Document"` only) leaves the text unchanged. -/
theorem C9_counterexample :
    post_process_response "Hi Assistant: leak" = "Hi" ∧
    specPostProcessWith specMarkers4 "Hi Assistant: leak" = "Hi Assistant: leak" := by
  constructor
  · rw [post_process_response_spec]
    decide
  · decide

/-- C9 (amended): post-processing of a successful response is exactly the
deterministic composition of truncation at the first occurrence of each of
the five leak markers `"User:"`, `"Assistant:"`, `"CONTEXT"`, `"==="`,
`"[Document"` (in that order), collapsing every run of three or more
newlines to two, stripping surrounding whitespace, and dropping a
disallowed case-insensitive preamble up to and including the first colon
with re-capitalization of the remainder. -/
theorem C9_post_processing (s : String) :
    post_process_response s = specPostProcessWith leakMarkers s :=
  post_process_response_spec s

/-! ## Claim C10: cosine similarity totality -/

/-- C10: the cosine-similarity computation is total — for every pair of
vectors it produces a value with no division by zero (`fdiv` never sees a
zero divisor): a zero norm on either side short-circuits to `0.0`, and
otherwise the result is the dot product over the product of norms.  `sqrt`
is any square-root function with `sqrt q = 0 ↔ q = 0`, as holds for the
float `np.sqrt` on the square norms involved. -/
theorem C10_cosine_total (sqrt : ℚ → ℚ) (vec1 vec2 : List ℚ)
    (hsqrt : ∀ q : ℚ, sqrt q = 0 ↔ q = 0) :
    (cosine_similarity sqrt vec1 vec2).isSome = true ∧
    (normSqQ vec1 = 0 ∨ normSqQ vec2 = 0 → cosine_similarity sqrt vec1 vec2 = some 0) ∧
    (normSqQ vec1 ≠ 0 → normSqQ vec2 ≠ 0 →
      cosine_similarity sqrt vec1 vec2
        = some (dotQ vec1 vec2 / (sqrt (normSqQ vec1) * sqrt (normSqQ vec2)))) := by
  unfold cosine_similarity
  by_cases hz : sqrt (normSqQ vec1) = 0 ∨ sqrt (normSqQ vec2) = 0
  · rw [if_pos hz]
    refine ⟨rfl, fun _ => rfl, ?_⟩
    intro h1 h2
    rcases hz with hz | hz
    · exact absurd ((hsqrt _).mp hz) h1
    · exact absurd ((hsqrt _).mp hz) h2
  · rw [if_neg hz]
    push_neg at hz
    have hprod : sqrt (normSqQ vec1) * sqrt (normSqQ vec2) ≠ 0 :=
      mul_ne_zero hz.1 hz.2
    unfold fdiv
    rw [if_neg hprod]
    refine ⟨rfl, ?_, fun _ _ => rfl⟩
    intro h
    rcases h with h | h
    · exact absurd ((hsqrt _).mpr h) hz.1
    · exact absurd ((hsqrt _).mpr h) hz.2

/-- C10 witness: the zero-vector case returns `0.0` (with the identity as
a valid `sqrt` model on these inputs). -/
theorem C10_witness : cosine_similarity id [(0 : ℚ), 0] [(1 : ℚ), 1] = some 0 :=
  (C10_cosine_total id [(0 : ℚ), 0] [(1 : ℚ), 1] (fun q => Iff.rfl)).2.1
    (Or.inl (by simp [normSqQ, dotQ]))

/-! ## Claim C1: the pipeline always answers -/

/-- Environment of the C1 counterexample, first path: retrieval disabled,
server initialized, and the completion call raising an unexpected
(non-timeout) exception. -/
def envExc : GenEnv :=
  { useRag := false, ragSearch := .ok [], llmUseReranker := false,
    rerankerPresent := false, rerankSt := ⟨false, false, 5⟩,
    predictOut := .raises, llmInit := true, llmOut := .raises }

/-- Environment of the C1 counterexample, second path: the reranker gate
passes but scoring raises, so the degraded rerank output carries no
`rerank_score` and the rerank-score logging f-string raises a `ValueError`
(formatting the `'N/A'` default with `:.3f`). -/
def envNA : GenEnv :=
  { useRag := true, ragSearch := .ok [docA], llmUseReranker := true,
    rerankerPresent := true, rerankSt := ⟨true, true, 5⟩,
    predictOut := .raises, llmInit := true, llmOut := .httpOk ["fine"] }

/-- C1 counterexample: an unexpected exception makes the top-level handler
return `None` — an unanswered request is returned to the caller,
contradicting the claim.  Two concrete paths: the completion call raising a
non-timeout exception (`envExc`), and the rerank-score logging f-string
raising on degraded rerank output (`envNA`). -/
theorem C1_counterexample :
    generate_response envExc "hello" none = none ∧
    generate_response envNA "hello" none = none :=
  ⟨rfl, rfl⟩

theorem ragPhase_error_cases {env : GenEnv} {e : Unit} (h : ragPhase env = .error e) :
    env.useRag = true ∧
    (env.ragSearch = .error e ∨
      (∃ top rest, env.ragSearch = .ok (top :: rest) ∧ top.similarity = none) ∨
      (∃ top rest d ds, env.ragSearch = .ok (top :: rest) ∧ rerankGate env = true ∧
        (rerank env.rerankSt env.predictOut (top :: rest) (some 5)).1 = d :: ds ∧
        d.rerank_score = none)) := by
  unfold ragPhase at h
  by_cases hu : env.useRag = true
  · rw [if_pos hu] at h
    refine ⟨hu, ?_⟩
    cases hs : env.ragSearch with
    | error e2 => exact Or.inl rfl
    | ok results =>
      rw [hs] at h
      dsimp only at h
      cases hres : results with
      | nil => rw [hres] at h; cases h
      | cons top rest =>
        subst hres
        dsimp only at h
        cases hsim : top.similarity with
        | none => exact Or.inr (Or.inl ⟨top, rest, rfl, hsim⟩)
        | some v =>
          rw [hsim] at h
          dsimp only at h
          by_cases hg : rerankGate env = true
          · rw [if_pos hg] at h
            cases hrr : (rerank env.rerankSt env.predictOut (top :: rest) (some 5)).1 with
            | nil => rw [hrr] at h; cases h
            | cons d ds =>
              rw [hrr] at h
              dsimp only at h
              cases hsc : d.rerank_score with
              | none =>
                exact Or.inr (Or.inr ⟨top, rest, d, ds, rfl, hg, hrr, hsc⟩)
              | some w => rw [hsc] at h; cases h
          · rw [if_neg hg] at h
            cases h
  · rw [if_neg hu] at h
    cases h

/-- C1 (amended): every path on which no unexpected exception occurs
terminates in a nonempty answer string — a generated answer, the timeout or
server-error message, the extractive fallback, or the apology.  But when an
unexpected exception is raised, `generate_response` catches it and returns
`None`: this happens when the retrieval call raises (as the shipped wiring
does, see C4), when the top search hit lacks a `similarity` key
(`KeyError` in the top-similarity log), when a degraded rerank under a
passing gate leaves the top document without a `rerank_score`
(`ValueError`: the `'N/A'` default formatted with `:.3f`), when the
completion call raises a non-timeout error, and when the fallback reads a
missing `title` key. -/
theorem C1_answers_unless_exception (env : GenEnv) (prompt : String)
    (hist : Option (List Turn))
    (h1 : env.useRag = true → ∃ docs, env.ragSearch = .ok docs)
    (h2 : env.llmInit = true → env.llmOut ≠ .raises)
    (h3 : env.llmInit = false → ∀ d rest, fallbackDocs env = d :: rest → d.title ≠ none)
    (h4 : env.useRag = true → ∀ top rest, env.ragSearch = .ok (top :: rest) →
      top.similarity ≠ none)
    (h5 : env.useRag = true → rerankGate env = true → ∀ docs, env.ragSearch = .ok docs →
      ∀ d ds, (rerank env.rerankSt env.predictOut docs (some 5)).1 = d :: ds →
        d.rerank_score ≠ none) :
    ∃ s, generate_response env prompt hist = some s ∧ s ≠ "" := by
  unfold generate_response
  cases hrag : ragPhase env with
  | error e =>
    obtain ⟨hu, hcases⟩ := ragPhase_error_cases hrag
    rcases hcases with hs | ⟨top, rest, hs, hsim⟩ | ⟨top, rest, d, ds, hs, hg, hrr, hsc⟩
    · obtain ⟨docs, hd⟩ := h1 hu
      rw [hd] at hs
      cases hs
    · exact absurd hsim (h4 hu top rest hs)
    · exact absurd hsc (h5 hu hg (top :: rest) hs d ds hrr)
  | ok pair =>
    obtain ⟨docs, used⟩ := pair
    dsimp only
    by_cases hinit : env.llmInit = true
    · rw [if_pos hinit]
      cases ho : env.llmOut with
      | httpOk choices =>
        cases choices with
        | nil =>
          exact ⟨noResponseMsg, rfl, by decide⟩
        | cons t ts =>
          unfold call_llm_server
          dsimp only
          by_cases hg : post_process_response (stripStr t) = ""
          · rw [if_pos hg]
            exact ⟨noResponseMsg, rfl, by decide⟩
          · rw [if_neg hg]
            exact ⟨post_process_response (stripStr t), rfl, hg⟩
      | httpErr code => exact ⟨techDifficultyMsg, rfl, by decide⟩
      | timeout => exact ⟨timeoutMsg, rfl, by decide⟩
      | raises => exact absurd ho (h2 hinit)
    · rw [if_neg hinit]
      have hfd : fallbackDocs env = if env.useRag = true then docs else [] := by
        unfold fallbackDocs
        rw [hrag]
      cases hcase : (if env.useRag = true then docs else ([] : List Doc)) with
      | nil =>
        exact ⟨apologyMsg, rfl, by decide⟩
      | cons top rest =>
        have htitle : top.title ≠ none := by
          refine h3 (by simpa using hinit) top rest ?_
          rw [hfd, hcase]
        cases ht : top.title with
        | none => exact absurd ht htitle
        | some title =>
          unfold generate_fallback_response
          dsimp only
          rw [ht]
          exact ⟨_, rfl, append_ne_empty_left _ (append_ne_empty_left _
            (append_ne_empty_left _ (append_ne_empty_left _ (by decide))))⟩

/-- Environment of the C1 witness: retrieval succeeds and the server
answers with a non-200 status. -/
def envW : GenEnv :=
  { useRag := true, ragSearch := .ok [docA], llmUseReranker := false,
    rerankerPresent := false, rerankSt := ⟨false, false, 5⟩,
    predictOut := .raises, llmInit := true, llmOut := .httpErr 500 }

/-- C1 witness: on a concrete exception-free environment the pipeline
produces an answer, never `None`. -/
theorem C1_witness : generate_response envW "q" none ≠ none := by
  obtain ⟨s, hs, -⟩ := C1_answers_unless_exception envW "q" none
    (fun _ => ⟨[docA], rfl⟩) (fun _ => by decide) (fun h => by simp [envW] at h)
    (by
      intro _ top rest h
      simp only [envW, Except.ok.injEq, List.cons.injEq] at h
      rcases h with ⟨rfl, -⟩
      decide)
    (fun _ hg => absurd hg (by decide))
  simp [hs]

/-! ## Claim C4: the similarity threshold -/

/-- Environment of the shipped wiring: the `search` call raises a
`TypeError` because `RAGComponent.search` does not accept the
`similarity_threshold` keyword `generate_response` passes. -/
def envTypeError : GenEnv :=
  { useRag := true, ragSearch := .error (), llmUseReranker := true,
    rerankerPresent := true, rerankSt := ⟨true, true, 5⟩,
    predictOut := .raises, llmInit := true, llmOut := .httpOk ["ok"] }

/-- C4: `RAGComponent.search` — the retriever wired into the pipeline —
does not accept the `similarity_threshold` keyword that `generate_response`
passes, so the call raises a `TypeError` and the pipeline returns `None`
instead of applying the threshold as a post-filter; the repository-level
`search_similar_documents` (the evident intent) does accept it. -/
theorem C4_threshold_not_accepted :
    kwargsAccepted ragSearchParams ragSearchCallKeywords = false ∧
    "similarity_threshold" ∈ ragSearchCallKeywords ∧
    "similarity_threshold" ∉ ragSearchParams ∧
    kwargsAccepted repoSearchParams ["similarity_threshold"] = true ∧
    generate_response envTypeError "How do I apply?" none = none := by
  exact ⟨by decide, by decide, by decide, by decide, rfl⟩

end Koisk
